import Mathlib

/-!
# Statistics aggregator of `main.go`

A shallow embedding of the shared state of `main.go` (`mostUpvotedPosts`,
`userPostCount`), of `updateStatistics`, and of the guard chain of
`getRedditAuthToken`, followed by the properties established about them.

Modelling conventions.

* Go `int` values (`Post.Upvotes`, the values of `userPostCount`) are modelled
  as `Int`.  `Upvotes` is only ever compared, never computed with.
* The counts are embedded twice.  `updateStatistics` counts in unbounded `Int`:
  it describes every run from the initial state, where a count is the number of
  records ingested and stays below `2^63`.  `Wrap64.updateStatistics` is the
  same loop with the increment of line 117 wrapping as the 64-bit `int` does;
  it is the one to use for an arbitrary starting state, whose counts may be at
  the top of the range.  `wrap64_updateStatistics_agrees` relates the two.
* Go `map[string]int` is modelled extensionally as `String → Option Int`
  (`none` for an absent key), so that two maps are equal exactly when they have
  the same keys with the same values.
* A Go run-time panic (index out of range) is the result `none`.
* `mu.Lock()` / `defer mu.Unlock()` have no counterpart: the embedding is
  sequential, each call of `updateStatistics` is one atomic state transformer.
-/

namespace GolangAssessment

/-! ## Data model -/

/-- The struct `Post` of `main.go`. -/
structure Post where
  Title : String
  Author : String
  Upvotes : Int
  deriving DecidableEq, Repr

/-- The package-level variables `mostUpvotedPosts` and `userPostCount`. -/
structure State where
  mostUpvotedPosts : List Post
  userPostCount : String → Option Int

/-- The state after `init`: `mostUpvotedPosts` is the nil slice and
`userPostCount = make(map[string]int)`. -/
def initState : State :=
  { mostUpvotedPosts := [], userPostCount := fun _ => none }

/-! ## `updateStatistics` -/

/-- Go map read `m[k]` on a `map[string]int`: the zero value when `k` is absent. -/
def mapRead (m : String → Option Int) (k : String) : Int :=
  (m k).getD 0

/-- Go statement `m[k]++` on a `map[string]int`, counting in unbounded `Int`
(exact while the count is below `2^63 - 1`; `Wrap64.mapIncr` is the 64-bit
statement). -/
def mapIncr (m : String → Option Int) (k : String) : String → Option Int :=
  fun k' => if k' = k then some (mapRead m k + 1) else m k'

/-- Bounds-checked slice indexing `s[i]`: `none` is the index-out-of-range panic. -/
def indexPost (s : List Post) (i : Nat) : Option Post :=
  s[i]?

/-- The condition of line 112,
`len(mostUpvotedPosts) < 10 || post.Upvotes > mostUpvotedPosts[9].Upvotes`,
with the short-circuit evaluation of `||`: the right operand (and its index
read) is evaluated only when the left operand is false. -/
def admitCond (lb : List Post) (post : Post) : Option Bool :=
  if lb.length < 10 then some true
  else
    match indexPost lb 9 with
    | none => none
    | some worst => some (decide (post.Upvotes > worst.Upvotes))

/-- One iteration of the loop body of `updateStatistics` (lines 112-117). -/
def updateOne (s : State) (post : Post) : Option State :=
  match admitCond s.mostUpvotedPosts post with
  | none => none
  | some c =>
    some
      { mostUpvotedPosts :=
          if c then s.mostUpvotedPosts ++ [post] else s.mostUpvotedPosts
        userPostCount := mapIncr s.userPostCount post.Author }

/-- The function `updateStatistics`: the loop `for _, post := range posts`. -/
def updateStatistics (s : State) : List Post → Option State
  | [] => some s
  | post :: rest =>
    match updateOne s post with
    | none => none
    | some s' => updateStatistics s' rest

/-- A sequence of calls of `updateStatistics`, one per batch, in order. -/
def updateStatisticsSeq (s : State) : List (List Post) → Option State
  | [] => some s
  | batch :: rest =>
    match updateStatistics s batch with
    | none => none
    | some s' => updateStatisticsSeq s' rest

/-! ## `updateStatistics` with the 64-bit `int` of the counts -/

/-- The value a 64-bit two's-complement `int` holds for the mathematical
integer `x`: Go integer arithmetic wraps around on overflow. -/
def wrapInt (x : Int) : Int :=
  (x + 2 ^ 63) % 2 ^ 64 - 2 ^ 63

namespace Wrap64

/-- Go statement `m[k]++` on a `map[string]int`, with the wrap-around of the
64-bit `int`. -/
def mapIncr (m : String → Option Int) (k : String) : String → Option Int :=
  fun k' => if k' = k then some (wrapInt (mapRead m k + 1)) else m k'

/-- One iteration of the loop body of `updateStatistics` (lines 112-117). -/
def updateOne (s : State) (post : Post) : Option State :=
  match admitCond s.mostUpvotedPosts post with
  | none => none
  | some c =>
    some
      { mostUpvotedPosts :=
          if c then s.mostUpvotedPosts ++ [post] else s.mostUpvotedPosts
        userPostCount := mapIncr s.userPostCount post.Author }

/-- The function `updateStatistics`: the loop `for _, post := range posts`. -/
def updateStatistics (s : State) : List Post → Option State
  | [] => some s
  | post :: rest =>
    match updateOne s post with
    | none => none
    | some s' => updateStatistics s' rest

/-- A sequence of calls of `updateStatistics`, one per batch, in order. -/
def updateStatisticsSeq (s : State) : List (List Post) → Option State
  | [] => some s
  | batch :: rest =>
    match updateStatistics s batch with
    | none => none
    | some s' => updateStatisticsSeq s' rest

end Wrap64

/-! ## `getRedditAuthToken`

The HTTP exchange and the JSON decoder are outside the program; what the
function does with their results is a chain of four guards, each ending the
process with `log.Fatalf`.  The outcome of the exchange (`err`, `resp`) and the
decoder (`unmarshal`) are inputs of the embedding.  A fatal exit is
`Except.error` with the message of the `log.Fatalf` that ended the process. -/

/-- A decoded JSON value, as `encoding/json` stores it in an `interface{}`
(`nil`, `bool`, `float64`, `string`, `[]interface{}`, `map[string]interface{}`);
numbers are kept as their text. -/
inductive JsonValue where
  | null : JsonValue
  | bool (b : Bool) : JsonValue
  | number (text : String) : JsonValue
  | string (s : String) : JsonValue
  | array (items : List JsonValue) : JsonValue
  | object (fields : List (String × JsonValue)) : JsonValue

/-- What `getRedditAuthToken` uses of a `*resty.Response`: the status code and
the body. -/
structure Response where
  StatusCode : Nat
  Body : String

/-- The library method `Response.IsError` of resty v2, documented there as
"returns true if HTTP status `code >= 400` otherwise false"
(`r.StatusCode() > 399`). -/
def Response.IsError (r : Response) : Bool :=
  decide (r.StatusCode > 399)

/-- A success status in the usual HTTP sense, the 2xx class (`200`-`299`);
this is also resty's own `Response.IsSuccess`. -/
def isSuccessStatus (code : Nat) : Bool :=
  decide (199 < code) && decide (code < 300)

/-- The type assertion `v.(string)` on the result of a map read: it succeeds
exactly when the key is present with a string value. -/
def assertString : Option JsonValue → Option String
  | some (JsonValue.string s) => some s
  | _ => none

/-- The function `getRedditAuthToken` (lines 57-78).  `err` and `resp` are the
two results of the `Post` call; `unmarshal body` is the map that
`json.Unmarshal(resp.Body(), &result)` leaves in `result`, or `none` when it
returns an error. -/
def getRedditAuthToken (unmarshal : String → Option (String → Option JsonValue))
    (err : Option String) (resp : Response) : Except String String :=
  match err with
  | some e => Except.error ("Failed to authenticate: " ++ e)
  | none =>
    if resp.IsError then
      Except.error "Authentication request failed with status"
    else
      match unmarshal resp.Body with
      | none => Except.error "Failed to parse authentication response"
      | some result =>
        match assertString (result "access_token") with
        | none => Except.error "No access token found in response"
        | some accessToken => Except.ok accessToken

/-- A decoder stub for concrete evaluations: every body decodes to the mapping
with the single field `access_token`, whose value is the string `tok`. -/
def tokenBody (tok : String) : String → Option (String → Option JsonValue) :=
  fun _ => some (fun k => if k = "access_token" then some (JsonValue.string tok) else none)

/-! ## Reference notions used by the statements

These definitions do not come from `main.go`; they spell out the words of the
properties (stable descending sort, top ten, per-author record count, the
admission test), and the code above is compared with them. -/

/-- Insertion of `p` into a list ordered by descending `Upvotes`, after every
entry whose `Upvotes` is at least that of `p` (so that among equal scores the
earlier arrival stays first). -/
def insertDesc (p : Post) : List Post → List Post
  | [] => [p]
  | q :: qs => if q.Upvotes < p.Upvotes then p :: q :: qs else q :: insertDesc p qs

/-- Stable sort by descending `Upvotes` of records listed in arrival order. -/
def stableSortDesc (records : List Post) : List Post :=
  records.foldl (fun acc p => insertDesc p acc) []

/-- The first ten entries of the stable descending sort. -/
def topTen (records : List Post) : List Post :=
  (stableSortDesc records).take 10

/-- Non-increasing order of `Upvotes`. -/
def SortedDesc (lb : List Post) : Prop :=
  lb.Pairwise (fun p q => q.Upvotes ≤ p.Upvotes)

instance (lb : List Post) : Decidable (SortedDesc lb) := by
  unfold SortedDesc; infer_instance

/-- Number of records of `posts` whose `Author` is `a`. -/
def authorCount (a : String) (posts : List Post) : Nat :=
  posts.countP (fun p => decide (p.Author = a))

/-- The admission test in the words of the specification: the leaderboard has
fewer than ten entries, or the record's `Upvotes` is strictly greater than that
of the entry at index 9. -/
def admitted (lb : List Post) (post : Post) : Bool :=
  decide (lb.length < 10) ||
    (match lb[9]? with
     | some tenth => decide (tenth.Upvotes < post.Upvotes)
     | none => false)

/-- The records of a batch that pass the admission test at their turn, in batch
order; `lb` is the leaderboard each record finds. -/
def admittedSuffix (lb : List Post) : List Post → List Post
  | [] => []
  | post :: rest =>
    if admitted lb post then post :: admittedSuffix (lb ++ [post]) rest
    else admittedSuffix lb rest

/-- The count map `m` after `n` further records of author `a`, at key `a`. -/
def countAfter (m : String → Option Int) (a : String) (n : Nat) : Option Int :=
  if n = 0 then m a else some (mapRead m a + n)

/-- The count map `m` after `n` further records of author `a`, at key `a`,
when each increment wraps as the 64-bit `int` does. -/
def countAfterWrap (m : String → Option Int) (a : String) (n : Nat) : Option Int :=
  if n = 0 then m a else some (wrapInt (mapRead m a + n))

/-- A state in which author `A` has the largest count an `int` holds,
`MaxInt64 = 9223372036854775807`. -/
def maxCountState : State :=
  { mostUpvotedPosts := [],
    userPostCount := fun k => if k = "A" then some 9223372036854775807 else none }

/-- Eleven records with the distinct ascending scores `1, …, 11`. -/
def ascendingEleven : List Post :=
  (List.range 11).map (fun i => { Title := "T", Author := "A", Upvotes := (i : Int) + 1 })

/-- A record with score 50 followed by a record with score 100. -/
def risingPair : List Post :=
  [{ Title := "T1", Author := "A", Upvotes := 50 },
   { Title := "T2", Author := "B", Upvotes := 100 }]

/-! ## Basic facts about the embedding -/

theorem admitCond_eq_admitted (lb : List Post) (post : Post) :
    admitCond lb post = some (admitted lb post) := by
  unfold admitCond admitted indexPost
  by_cases h : lb.length < 10
  · simp [h]
  · have h9 : 9 < lb.length := by omega
    simp [h, List.getElem?_eq_getElem h9]

theorem updateOne_eq (s : State) (post : Post) :
    updateOne s post =
      some { mostUpvotedPosts :=
               if admitted s.mostUpvotedPosts post then s.mostUpvotedPosts ++ [post]
               else s.mostUpvotedPosts
             userPostCount := mapIncr s.userPostCount post.Author } := by
  unfold updateOne
  rw [admitCond_eq_admitted]

theorem authorCount_cons (a : String) (p : Post) (rest : List Post) :
    authorCount a (p :: rest) = authorCount a rest + (if p.Author = a then 1 else 0) := by
  unfold authorCount
  rw [List.countP_cons]
  simp

theorem authorCount_append (a : String) (xs ys : List Post) :
    authorCount a (xs ++ ys) = authorCount a xs + authorCount a ys := by
  unfold authorCount
  exact List.countP_append _ xs ys

theorem countAfter_mapIncr (m : String → Option Int) (b a : String) (n : Nat) :
    countAfter (mapIncr m b) a n = countAfter m a (n + (if b = a then 1 else 0)) := by
  unfold countAfter mapIncr mapRead
  by_cases hba : b = a
  · subst hba
    by_cases hn : n = 0
    · simp [hn]
    · simp [hn]; omega
  · have hab : ¬ a = b := fun h => hba h.symm
    simp [hba, hab]

/-- The effect of `updateStatistics` on both variables, for every state and
batch: the call returns, the leaderboard grows by the admitted records, and the
count of every author grows by the number of that author's records. -/
theorem updateStatistics_effect (posts : List Post) :
    ∀ s : State, ∃ s', updateStatistics s posts = some s' ∧
      s'.mostUpvotedPosts = s.mostUpvotedPosts ++ admittedSuffix s.mostUpvotedPosts posts ∧
      ∀ a, s'.userPostCount a = countAfter s.userPostCount a (authorCount a posts) := by
  induction posts with
  | nil =>
    intro s
    exact ⟨s, rfl, by simp [admittedSuffix], fun a => by simp [countAfter, authorCount]⟩
  | cons p rest ih =>
    intro s
    obtain ⟨s', hrun, hlb, hcnt⟩ := ih
      { mostUpvotedPosts :=
          if admitted s.mostUpvotedPosts p then s.mostUpvotedPosts ++ [p]
          else s.mostUpvotedPosts
        userPostCount := mapIncr s.userPostCount p.Author }
    refine ⟨s', ?_, ?_, ?_⟩
    · simp only [updateStatistics, updateOne_eq]
      exact hrun
    · rw [hlb]
      by_cases hadm : admitted s.mostUpvotedPosts p = true
      · simp [admittedSuffix, hadm]
      · simp [admittedSuffix, hadm]
    · intro a
      rw [hcnt a, countAfter_mapIncr, authorCount_cons]

/-- The effect of a sequence of calls equals the effect of one call on the
concatenation of the batches. -/
theorem updateStatisticsSeq_eq_join (batches : List (List Post)) :
    ∀ s : State, updateStatisticsSeq s batches = updateStatistics s batches.flatten := by
  induction batches with
  | nil => intro s; rfl
  | cons b rest ih =>
    intro s
    obtain ⟨s1, h1, -, -⟩ := updateStatistics_effect b s
    have happ : ∀ (xs ys : List Post) (t : State),
        updateStatistics t (xs ++ ys)
          = (match updateStatistics t xs with
             | none => none
             | some t' => updateStatistics t' ys) := by
      intro xs
      induction xs with
      | nil => intro ys t; rfl
      | cons x xs ihx =>
        intro ys t
        simp only [List.cons_append, updateStatistics, updateOne_eq]
        exact ihx ys _
    simp only [updateStatisticsSeq, List.flatten_cons, happ, h1]
    exact ih s1

theorem updateStatisticsSeq_effect (batches : List (List Post)) (s : State) :
    ∃ s', updateStatisticsSeq s batches = some s' ∧
      s'.mostUpvotedPosts
        = s.mostUpvotedPosts ++ admittedSuffix s.mostUpvotedPosts batches.flatten ∧
      ∀ a, s'.userPostCount a
        = countAfter s.userPostCount a (authorCount a batches.flatten) := by
  rw [updateStatisticsSeq_eq_join]
  exact updateStatistics_effect batches.flatten s

theorem admittedSuffix_sublist (batch : List Post) :
    ∀ lb : List Post, (admittedSuffix lb batch).Sublist batch := by
  induction batch with
  | nil => intro lb; simp [admittedSuffix]
  | cons p rest ih =>
    intro lb
    by_cases hadm : admitted lb p = true
    · simp only [admittedSuffix, hadm, if_true]
      exact (ih (lb ++ [p])).cons₂ p
    · simp only [admittedSuffix, hadm]
      exact (ih lb).cons p

theorem getElem?_nine_append (lb xs : List Post) (h : 10 ≤ lb.length) :
    (lb ++ xs)[9]? = lb[9]? := by
  have h9 : 9 < lb.length := by omega
  exact List.getElem?_append_left h9

theorem admitted_append (lb xs : List Post) (p : Post) (h : 10 ≤ lb.length) :
    admitted (lb ++ xs) p = admitted lb p := by
  have h1 : ¬ lb.length < 10 := by omega
  have h2 : ¬ lb.length + xs.length < 10 := by omega
  unfold admitted
  rw [getElem?_nine_append lb xs h]
  simp [h1, h2]

theorem admittedSuffix_full (batch : List Post) :
    ∀ lb : List Post, 10 ≤ lb.length →
      admittedSuffix lb batch = batch.filter (fun p => admitted lb p) := by
  induction batch with
  | nil => intro lb _; simp [admittedSuffix]
  | cons p rest ih =>
    intro lb h
    by_cases hadm : admitted lb p = true
    · have hlen : 10 ≤ (lb ++ [p]).length := by simp; omega
      simp only [admittedSuffix, hadm, if_true, List.filter_cons]
      rw [ih (lb ++ [p]) hlen]
      congr 1
      apply List.filter_congr
      intro q _
      exact admitted_append lb [p] q h
    · simp only [admittedSuffix, hadm, List.filter_cons]
      exact ih lb h

/-! ## Basic facts about the 64-bit embedding -/

theorem wrapInt_add_wrapInt (x n : Int) : wrapInt (wrapInt x + n) = wrapInt (x + n) := by
  unfold wrapInt
  omega

theorem wrapInt_of_inRange (x : Int) (hlo : -2 ^ 63 ≤ x) (hhi : x < 2 ^ 63) :
    wrapInt x = x := by
  unfold wrapInt
  omega

theorem wrap64_updateOne_eq (s : State) (post : Post) :
    Wrap64.updateOne s post =
      some { mostUpvotedPosts :=
               if admitted s.mostUpvotedPosts post then s.mostUpvotedPosts ++ [post]
               else s.mostUpvotedPosts
             userPostCount := Wrap64.mapIncr s.userPostCount post.Author } := by
  unfold Wrap64.updateOne
  rw [admitCond_eq_admitted]

theorem countAfterWrap_mapIncr (m : String → Option Int) (b a : String) (n : Nat) :
    countAfterWrap (Wrap64.mapIncr m b) a n
      = countAfterWrap m a (n + (if b = a then 1 else 0)) := by
  unfold countAfterWrap Wrap64.mapIncr mapRead
  by_cases hba : b = a
  · subst hba
    by_cases hn : n = 0
    · simp [hn]
    · simp only [hn, if_true, if_false, Option.getD_some, Nat.add_eq_zero, one_ne_zero,
        and_false, Option.some.injEq]
      rw [wrapInt_add_wrapInt]
      congr 1
      push_cast
      omega
  · have hab : ¬ a = b := fun h => hba h.symm
    simp [hba, hab]

/-- The effect of the 64-bit `updateStatistics` on both variables, for every
state and batch. -/
theorem wrap64_updateStatistics_effect (posts : List Post) :
    ∀ s : State, ∃ s', Wrap64.updateStatistics s posts = some s' ∧
      s'.mostUpvotedPosts = s.mostUpvotedPosts ++ admittedSuffix s.mostUpvotedPosts posts ∧
      ∀ a, s'.userPostCount a = countAfterWrap s.userPostCount a (authorCount a posts) := by
  induction posts with
  | nil =>
    intro s
    exact ⟨s, rfl, by simp [admittedSuffix], fun a => by simp [countAfterWrap, authorCount]⟩
  | cons p rest ih =>
    intro s
    obtain ⟨s', hrun, hlb, hcnt⟩ := ih
      { mostUpvotedPosts :=
          if admitted s.mostUpvotedPosts p then s.mostUpvotedPosts ++ [p]
          else s.mostUpvotedPosts
        userPostCount := Wrap64.mapIncr s.userPostCount p.Author }
    refine ⟨s', ?_, ?_, ?_⟩
    · simp only [Wrap64.updateStatistics, wrap64_updateOne_eq]
      exact hrun
    · rw [hlb]
      by_cases hadm : admitted s.mostUpvotedPosts p = true
      · simp [admittedSuffix, hadm]
      · simp [admittedSuffix, hadm]
    · intro a
      rw [hcnt a, countAfterWrap_mapIncr, authorCount_cons]

theorem wrap64_updateStatisticsSeq_effect (batches : List (List Post)) :
    ∀ s : State, ∃ s', Wrap64.updateStatisticsSeq s batches = some s' ∧
      ∀ a, s'.userPostCount a
        = countAfterWrap s.userPostCount a (authorCount a batches.flatten) := by
  induction batches with
  | nil =>
    intro s
    exact ⟨s, rfl, fun a => by simp [countAfterWrap, authorCount]⟩
  | cons b rest ih =>
    intro s
    obtain ⟨s1, h1, -, c1⟩ := wrap64_updateStatistics_effect b s
    obtain ⟨s2, h2, c2⟩ := ih s1
    refine ⟨s2, by simp only [Wrap64.updateStatisticsSeq, h1]; exact h2, ?_⟩
    intro a
    rw [c2 a, List.flatten_cons, authorCount_append]
    unfold countAfterWrap mapRead
    rw [c1 a]
    unfold countAfterWrap mapRead
    by_cases hb : authorCount a b = 0
    · by_cases hr : authorCount a rest.flatten = 0
      · simp [hb, hr]
      · simp [hb, hr]
    · by_cases hr : authorCount a rest.flatten = 0
      · simp [hb, hr]
      · simp only [hb, hr, if_false, Option.getD_some, Nat.add_eq_zero, false_and,
          Option.some.injEq]
        rw [wrapInt_add_wrapInt]
        congr 1
        push_cast
        omega

/-- The two embeddings agree: they return together, with the same leaderboard,
and with the same count for every author whose count before the call, plus the
number of that author's records in the batch, stays in the range of `int`. -/
theorem wrap64_updateStatistics_agrees (s : State) (batch : List Post) :
    ∃ s' w', updateStatistics s batch = some s' ∧
      Wrap64.updateStatistics s batch = some w' ∧
      w'.mostUpvotedPosts = s'.mostUpvotedPosts ∧
      ∀ a, -2 ^ 63 ≤ mapRead s.userPostCount a →
        mapRead s.userPostCount a + authorCount a batch < 2 ^ 63 →
        w'.userPostCount a = s'.userPostCount a := by
  obtain ⟨s', hrun, hlb, hcnt⟩ := updateStatistics_effect batch s
  obtain ⟨w', hrunw, hlbw, hcntw⟩ := wrap64_updateStatistics_effect batch s
  refine ⟨s', w', hrun, hrunw, by rw [hlb, hlbw], ?_⟩
  intro a hlo hhi
  rw [hcnt a, hcntw a]
  unfold countAfter countAfterWrap
  by_cases hn : authorCount a batch = 0
  · simp [hn]
  · simp only [hn, if_false, Option.some.injEq]
    exact wrapInt_of_inRange _ (by omega) hhi

/-! ## The leaderboard: top ten, length bound, order (C1, C2, C3)

`updateStatistics` only appends (line 113); the sort announced by the comment
of line 114 and the truncation to ten entries are not in the code.  The three
theorems below evaluate the code at inputs where this shows. -/

/-- C1 (the code at the failing input): ingesting the eleven records with
scores 1..11 in ascending order from the initial state leaves all eleven
records on the leaderboard, in arrival order, the record with score 1 included;
the first ten of the stable descending sort are the scores 11, 10, ..., 2. -/
theorem updateStatistics_ascendingEleven_keeps_all :
    (updateStatisticsSeq initState [ascendingEleven]).map
        (fun s => s.mostUpvotedPosts.map (fun p => p.Upvotes))
      = some [1, 2, 3, 4, 5, 6, 7, 8, 9, 10, 11] ∧
    (topTen ascendingEleven).map (fun p => p.Upvotes)
      = [11, 10, 9, 8, 7, 6, 5, 4, 3, 2] ∧
    (updateStatisticsSeq initState [ascendingEleven]).map (fun s => s.mostUpvotedPosts)
      ≠ some (topTen ascendingEleven) := by
  decide

/-- C2 (the code at the failing input): after ingesting the ten records with
scores 1..10 and then, in a second call, the record with score 11, the
leaderboard has eleven entries. -/
theorem updateStatistics_leaderboard_length_eleven :
    (updateStatisticsSeq initState [ascendingEleven.take 10, ascendingEleven.drop 10]).map
        (fun s => s.mostUpvotedPosts.length)
      = some 11 := by
  decide

/-- C3 (the code at the failing input): after ingesting a record with score 50
followed by a record with score 100, the leaderboard holds them in arrival
order, which is not non-increasing in `Upvotes`. -/
theorem updateStatistics_leaderboard_not_sorted :
    (updateStatistics initState risingPair).map (fun s => s.mostUpvotedPosts)
      = some risingPair ∧
    ¬ SortedDesc risingPair := by
  decide

/-! ## The author counts (C4, C5, C6) -/

/-- C5: for every starting state and batches `B1`, `B2`, the count map after
`updateStatistics(B1)` then `updateStatistics(B2)` equals the count map after
one `updateStatistics(B1 ++ B2)` and the one after one
`updateStatistics(B2 ++ B1)`; all three runs return. -/
theorem userPostCount_batch_order (s : State) (B1 B2 : List Post) :
    ∃ s12 sc sr,
      updateStatisticsSeq s [B1, B2] = some s12 ∧
      updateStatistics s (B1 ++ B2) = some sc ∧
      updateStatistics s (B2 ++ B1) = some sr ∧
      s12.userPostCount = sc.userPostCount ∧
      s12.userPostCount = sr.userPostCount := by
  obtain ⟨s12, h12, -, c12⟩ := updateStatisticsSeq_effect [B1, B2] s
  obtain ⟨sc, hc, -, cc⟩ := updateStatistics_effect (B1 ++ B2) s
  obtain ⟨sr, hr, -, cr⟩ := updateStatistics_effect (B2 ++ B1) s
  refine ⟨s12, sc, sr, h12, hc, hr, ?_, ?_⟩
  · funext a
    rw [c12 a, cc a]
    simp
  · funext a
    rw [c12 a, cr a]
    simp only [List.flatten_cons, List.flatten_nil, List.append_nil, authorCount_append]
    rw [Nat.add_comm]

/-- C6 (as stated, at a concrete input): from the state in which author `A`
has the count `9223372036854775807`, a call with one record of author `A`
returns with `A` still present, and the count has wrapped to
`-9223372036854775808`, which is smaller than the count before the call. -/
theorem userPostCount_decreases_at_maxInt :
    (Wrap64.updateStatistics maxCountState
        [{ Title := "T", Author := "A", Upvotes := 0 }]).map
        (fun s => s.userPostCount "A")
      = some (some (-9223372036854775808)) ∧
    maxCountState.userPostCount "A" = some 9223372036854775807 ∧
    (-9223372036854775808 : Int) < 9223372036854775807 := by
  decide

/-- C6 (amended): for every state and batch, the 64-bit `updateStatistics`
returns and every author present in `userPostCount` before the call is present
after it, with a count at least as large whenever the count before the call is
a value of `int` and, increased by the number of the batch's records of that
author, stays below `2^63`; and every count present after any sequence of
batches ingested from the initial state is at least 1 when the author has fewer
than `2^63` ingested records. -/
theorem userPostCount_monotone_in_range :
    (∀ (s : State) (batch : List Post), ∃ s', Wrap64.updateStatistics s batch = some s' ∧
      ∀ a c, s.userPostCount a = some c →
        ∃ c', s'.userPostCount a = some c' ∧
          (-2 ^ 63 ≤ c → c + authorCount a batch < 2 ^ 63 → c ≤ c')) ∧
    (∀ batches : List (List Post),
      ∃ s, Wrap64.updateStatisticsSeq initState batches = some s ∧
        ∀ a c, s.userPostCount a = some c →
          (authorCount a batches.flatten : Int) < 2 ^ 63 → 1 ≤ c) := by
  constructor
  · intro s batch
    obtain ⟨s', hrun, -, hcnt⟩ := wrap64_updateStatistics_effect batch s
    refine ⟨s', hrun, ?_⟩
    intro a c hc
    rw [hcnt a]
    unfold countAfterWrap mapRead
    by_cases hn : authorCount a batch = 0
    · exact ⟨c, by simp [hn, hc], fun _ _ => le_refl c⟩
    · refine ⟨wrapInt (c + authorCount a batch), by simp [hn, hc], ?_⟩
      intro hlo hhi
      rw [wrapInt_of_inRange _ (by omega) hhi]
      omega
  · intro batches
    obtain ⟨s, hrun, hcnt⟩ := wrap64_updateStatisticsSeq_effect batches initState
    refine ⟨s, hrun, ?_⟩
    intro a c hc hlt
    rw [hcnt a] at hc
    unfold countAfterWrap mapRead initState at hc
    by_cases hn : authorCount a batches.flatten = 0
    · simp [hn] at hc
    · simp only [hn, if_false, Option.getD_none, zero_add, Option.some.injEq] at hc
      rw [wrapInt_of_inRange _ (by omega) hlt] at hc
      omega

/-- C6 (amended), at a concrete state: from the map `{"A": 3}`, ingesting two
records of author `A` and one of author `B` leaves `A` present with a count of
at least 3. -/
theorem userPostCount_monotone_in_range_witness :
    ∃ s', Wrap64.updateStatistics
        { mostUpvotedPosts := [],
          userPostCount := fun k => if k = "A" then some 3 else none }
        [{ Title := "T1", Author := "A", Upvotes := 7 },
         { Title := "T2", Author := "B", Upvotes := 1 },
         { Title := "T3", Author := "A", Upvotes := 2 }] = some s' ∧
      ∃ c', s'.userPostCount "A" = some c' ∧ (3 : Int) ≤ c' := by
  obtain ⟨s', hrun, hmono⟩ := userPostCount_monotone_in_range.1
    { mostUpvotedPosts := [],
      userPostCount := fun k => if k = "A" then some 3 else none }
    [{ Title := "T1", Author := "A", Upvotes := 7 },
     { Title := "T2", Author := "B", Upvotes := 1 },
     { Title := "T3", Author := "A", Upvotes := 2 }]
  obtain ⟨c', hc', hle⟩ := hmono "A" 3 (by decide)
  exact ⟨s', hrun, c', hc', hle (by decide) (by decide)⟩

/-! ## The index read of line 112 and the growth of the leaderboard (C9, C10) -/

/-- C9: reading index 9 of a leaderboard with fewer than ten entries would be
out of range, and the evaluation of the condition of line 112 never is: for
every leaderboard and record the condition evaluates to a boolean, for every
state and batch `updateStatistics` returns, and a record that finds fewer than
ten entries is appended unconditionally. -/
theorem index_nine_never_out_of_range :
    (∀ lb : List Post, lb.length < 10 → indexPost lb 9 = none) ∧
    (∀ (lb : List Post) (post : Post), ∃ c, admitCond lb post = some c) ∧
    (∀ (s : State) (batch : List Post), ∃ s', updateStatistics s batch = some s') ∧
    (∀ (s : State) (post : Post), s.mostUpvotedPosts.length < 10 →
      admitCond s.mostUpvotedPosts post = some true ∧
      ∃ s', updateOne s post = some s' ∧
        s'.mostUpvotedPosts = s.mostUpvotedPosts ++ [post]) := by
  refine ⟨?_, ?_, ?_, ?_⟩
  · intro lb h
    unfold indexPost
    exact List.getElem?_eq_none (by omega)
  · intro lb post
    exact ⟨admitted lb post, admitCond_eq_admitted lb post⟩
  · intro s batch
    obtain ⟨s', hrun, -, -⟩ := updateStatistics_effect batch s
    exact ⟨s', hrun⟩
  · intro s post h
    have hadm : admitted s.mostUpvotedPosts post = true := by
      simp [admitted, h]
    refine ⟨by rw [admitCond_eq_admitted, hadm], ?_⟩
    rw [updateOne_eq]
    exact ⟨_, rfl, by simp [hadm]⟩

/-- C9, at a concrete state: a record with score 0 that finds the two-entry
leaderboard `risingPair` is appended. -/
theorem index_nine_never_out_of_range_witness :
    admitCond risingPair { Title := "T3", Author := "C", Upvotes := 0 } = some true ∧
    ∃ s', updateOne { mostUpvotedPosts := risingPair, userPostCount := fun _ => none }
        { Title := "T3", Author := "C", Upvotes := 0 } = some s' ∧
      s'.mostUpvotedPosts = risingPair ++ [{ Title := "T3", Author := "C", Upvotes := 0 }] :=
  index_nine_never_out_of_range.2.2.2
    { mostUpvotedPosts := risingPair, userPostCount := fun _ => none }
    { Title := "T3", Author := "C", Upvotes := 0 } (by decide)

/-- C10: for every state and batch, `updateStatistics` returns a state whose
leaderboard is the previous leaderboard followed by the records of the batch
that passed the admission test at their turn (fewer than ten entries, or
`Upvotes` strictly greater than the entry at index 9), in batch order, and when
the leaderboard already holds ten entries the appended records are those of the
batch that beat the entry at index 9; and from a state whose leaderboard holds
ten entries, after any sequence of calls the leaderboard still holds at least
ten entries and the entry at index 9 is the same. -/
theorem leaderboard_append_only :
    (∀ (s : State) (batch : List Post),
      ∃ s', updateStatistics s batch = some s' ∧
        s'.mostUpvotedPosts
          = s.mostUpvotedPosts ++ admittedSuffix s.mostUpvotedPosts batch ∧
        (admittedSuffix s.mostUpvotedPosts batch).Sublist batch ∧
        (10 ≤ s.mostUpvotedPosts.length →
          admittedSuffix s.mostUpvotedPosts batch
            = batch.filter (fun p => admitted s.mostUpvotedPosts p))) ∧
    (∀ (s : State) (batches : List (List Post)), 10 ≤ s.mostUpvotedPosts.length →
      ∃ s', updateStatisticsSeq s batches = some s' ∧
        10 ≤ s'.mostUpvotedPosts.length ∧
        s'.mostUpvotedPosts[9]? = s.mostUpvotedPosts[9]?) := by
  constructor
  · intro s batch
    obtain ⟨s', hrun, hlb, -⟩ := updateStatistics_effect batch s
    exact ⟨s', hrun, hlb, admittedSuffix_sublist batch _,
      fun h => admittedSuffix_full batch _ h⟩
  · intro s batches h
    obtain ⟨s', hrun, hlb, -⟩ := updateStatisticsSeq_effect batches s
    refine ⟨s', hrun, ?_, ?_⟩
    · rw [hlb, List.length_append]
      omega
    · rw [hlb]
      exact getElem?_nine_append _ _ h

/-- C10, at a concrete state: with the ten records of scores 1..10 on the
leaderboard, two calls with the batch of scores 50 and 100 leave the entry at
index 9 (score 10) in place. -/
theorem leaderboard_append_only_witness :
    ∃ s', updateStatisticsSeq
        { mostUpvotedPosts := ascendingEleven.take 10, userPostCount := fun _ => none }
        [risingPair, risingPair] = some s' ∧
      10 ≤ s'.mostUpvotedPosts.length ∧
      s'.mostUpvotedPosts[9]? = (ascendingEleven.take 10)[9]? :=
  leaderboard_append_only.2
    { mostUpvotedPosts := ascendingEleven.take 10, userPostCount := fun _ => none }
    [risingPair, risingPair] (by decide)

/-! ## `getRedditAuthToken` (C7) -/

/-- C7 (as stated, at a concrete input): with no transport error, status 300
(not in the 2xx success class) and a body that decodes to a mapping with the
string `access_token = "t"`, `getRedditAuthToken` returns the token `"t"`. -/
theorem getRedditAuthToken_status_300_returns :
    getRedditAuthToken (tokenBody "t") none { StatusCode := 300, Body := "" }
      = Except.ok "t" ∧
    isSuccessStatus 300 = false :=
  ⟨rfl, rfl⟩

/-- C7 (amended): `getRedditAuthToken` returns the token `tok` if and only if
the exchange had no transport error, the response status is not an error status
(status code below 400), the body decodes to a mapping, and that mapping has a
string-valued `access_token` field whose value is `tok`; when no token
satisfies these conditions the process ends with a fatal message; in particular
it does so on a 401 response. -/
theorem getRedditAuthToken_returns_iff
    (unmarshal : String → Option (String → Option JsonValue))
    (err : Option String) (resp : Response) :
    (∀ tok, getRedditAuthToken unmarshal err resp = Except.ok tok ↔
      (err = none ∧ resp.StatusCode < 400 ∧
        ∃ m, unmarshal resp.Body = some m ∧
          m "access_token" = some (JsonValue.string tok))) ∧
    ((¬ ∃ tok, err = none ∧ resp.StatusCode < 400 ∧
        ∃ m, unmarshal resp.Body = some m ∧
          m "access_token" = some (JsonValue.string tok)) →
      ∃ msg, getRedditAuthToken unmarshal err resp = Except.error msg) ∧
    (resp.StatusCode = 401 →
      ∃ msg, getRedditAuthToken unmarshal err resp = Except.error msg) := by
  have key : ∀ tok, getRedditAuthToken unmarshal err resp = Except.ok tok ↔
      (err = none ∧ resp.StatusCode < 400 ∧
        ∃ m, unmarshal resp.Body = some m ∧
          m "access_token" = some (JsonValue.string tok)) := by
    intro tok
    unfold getRedditAuthToken Response.IsError
    cases err with
    | some e => simp
    | none =>
      by_cases hs : resp.StatusCode > 399
      · have : ¬ resp.StatusCode < 400 := by omega
        simp [hs, this]
      · have hlt : resp.StatusCode < 400 := by omega
        cases hu : unmarshal resp.Body with
        | none => simp [hs]
        | some m =>
          cases hm : m "access_token" with
          | none => simp [hs, hlt, hm, assertString]
          | some v =>
            cases v <;> simp [hs, hlt, hm, assertString]
  have total : ∀ r : Except String String,
      (∀ tok, r ≠ Except.ok tok) → ∃ msg, r = Except.error msg := by
    intro r hr
    cases r with
    | error msg => exact ⟨msg, rfl⟩
    | ok tok => exact absurd rfl (hr tok)
  refine ⟨key, ?_, ?_⟩
  · intro hno
    apply total
    intro tok htok
    exact hno ⟨tok, (key tok).mp htok⟩
  · intro h401
    apply total
    intro tok htok
    have := ((key tok).mp htok).2.1
    omega

/-- C7 (amended), at concrete inputs: a 200 response whose body decodes to a
mapping with the string `access_token = "t"` yields the token `"t"`, and a 401
response yields a fatal exit. -/
theorem getRedditAuthToken_returns_iff_witness :
    getRedditAuthToken (tokenBody "t") none { StatusCode := 200, Body := "" }
      = Except.ok "t" ∧
    ∃ msg, getRedditAuthToken (tokenBody "t") none { StatusCode := 401, Body := "" }
      = Except.error msg :=
  ⟨((getRedditAuthToken_returns_iff (tokenBody "t") none
        { StatusCode := 200, Body := "" }).1 "t").mpr
      ⟨rfl, by decide, _, rfl, rfl⟩,
   (getRedditAuthToken_returns_iff (tokenBody "t") none
        { StatusCode := 401, Body := "" }).2.2 rfl⟩

end GolangAssessment
